import Mathlib

/-!
Verification of the passport-processing program (Advent of Code 2020, day 4).

The source program (src/src/main.rs) reads a text file, splits it into
blank-line-separated blocks, parses each block into a `PassportEntry` with
eight optional string fields, and counts the entries accepted by one of two
validators (`is_valid_pt1` for part 1, `is_valid_pt2` for part 2).

Shallow embedding conventions:
- Rust `String` values are embedded as `List Char` (`Str`).
- The file is embedded as `Option (List Str)`: `none` models a file that
  cannot be opened (`read_lines` returning `Err`), `some lines` models the
  list of lines of a readable file.
- A Rust panic (an `unwrap` on a failed regex match, or the explicit
  `panic!("Invalid key ...")`) is embedded as `Option.none` propagating out
  of the parsing functions.
- `u32::from_str` is embedded by `parseU32`: an optional leading '+',
  then one or more ASCII digits, with the value required to fit in 32 bits.
- The regex `(\S+):(\S+)` of `PassportEntry::from_str` is unanchored and is
  applied to a whitespace-free token, with greedy leftmost-first semantics:
  its first match starts at index 0 and splits the token at the LAST colon
  that has at least one character before it and at least one after it.
  `splitToken` embeds exactly that behaviour.
- The anchored regexes `^(\d+)cm$`, `^(\d+)in$`, `^#[a-f|0-9]{6}$`, `^\d{9}$`
  are embedded by direct structural decompositions of the string; `\d` is
  taken as an ASCII digit.
-/

namespace Day4

/-- Strings of the Rust program, embedded as lists of characters. -/
abbrev Str := List Char

/-- The record type: eight optional fields, all absent by default
(Rust `#[derive(Default)] struct PassportEntry`). -/
structure PassportEntry where
  ecl : Option Str
  eyr : Option Str
  pid : Option Str
  hcl : Option Str
  byr : Option Str
  iyr : Option Str
  cid : Option Str
  hgt : Option Str
deriving DecidableEq

/-- Rust `PassportEntry::default()`: every field absent. -/
def PassportEntry.default : PassportEntry :=
  ⟨none, none, none, none, none, none, none, none⟩

/-- Helper for `splitWhitespace`: accumulates the current token (reversed). -/
def splitWSAux : Str → Str → List Str
  | [], acc => if acc = [] then [] else [acc.reverse]
  | c :: cs, acc =>
    if c.isWhitespace then
      if acc = [] then splitWSAux cs []
      else acc.reverse :: splitWSAux cs []
    else splitWSAux cs (c :: acc)

/-- Rust `str::split_whitespace`: the maximal runs of non-whitespace
characters, in order. -/
def splitWhitespace (s : Str) : List Str := splitWSAux s []

/-- Index of the last colon in `t` that has at least one character before it
and at least one character after it (the split position chosen by the first
match of the greedy unanchored regex `(\S+):(\S+)` on a whitespace-free
token). -/
def lastInteriorColon (t : Str) : Option Nat :=
  ((List.range t.length).filter
    (fun j => (t.get? j == some ':') && (j != 0) && (j + 2 ≤ t.length))).getLast?

/-- First match of the regex `(\S+):(\S+)` on a whitespace-free token:
`some (key, value)` with the split at the last interior colon, or `none`
when the regex does not match (which makes `.unwrap()` panic in the
source). -/
def splitToken (t : Str) : Option (Str × Str) :=
  match lastInteriorColon t with
  | some j => some (t.take j, t.drop (j + 1))
  | none => none

/-- The eight recognized keys of the `match` in `PassportEntry::from_str`. -/
def validKey (k : Str) : Bool :=
  if k = "ecl".toList then true
  else if k = "eyr".toList then true
  else if k = "pid".toList then true
  else if k = "hcl".toList then true
  else if k = "byr".toList then true
  else if k = "iyr".toList then true
  else if k = "cid".toList then true
  else if k = "hgt".toList then true
  else false

/-- One arm of the `match &cap[1]` in `PassportEntry::from_str`: store the
value under the recognized key, or `none` for the `panic!("Invalid key")`
arm. -/
def setField (pe : PassportEntry) (k v : Str) : Option PassportEntry :=
  if k = "ecl".toList then some { pe with ecl := some v }
  else if k = "eyr".toList then some { pe with eyr := some v }
  else if k = "pid".toList then some { pe with pid := some v }
  else if k = "hcl".toList then some { pe with hcl := some v }
  else if k = "byr".toList then some { pe with byr := some v }
  else if k = "iyr".toList then some { pe with iyr := some v }
  else if k = "cid".toList then some { pe with cid := some v }
  else if k = "hgt".toList then some { pe with hgt := some v }
  else none

/-- One iteration of the token loop of `PassportEntry::from_str`:
`none` models a panic (regex with no match, or unrecognized key). -/
def applyToken (pe : PassportEntry) (t : Str) : Option PassportEntry :=
  match splitToken t with
  | some (k, v) => setField pe k v
  | none => none

/-- The token loop of `PassportEntry::from_str`. -/
def from_str_tokens : PassportEntry → List Str → Option PassportEntry
  | pe, [] => some pe
  | pe, t :: ts =>
    match applyToken pe t with
    | some pe2 => from_str_tokens pe2 ts
    | none => none

/-- Rust `PassportEntry::from_str`: split the block on whitespace and fold
the tokens into a default record; `none` models a panic. -/
def from_str (s : Str) : Option PassportEntry :=
  from_str_tokens PassportEntry.default (splitWhitespace s)

/-- Rust `PassportEntry::is_valid_pt1`: all seven non-`cid` fields present. -/
def is_valid_pt1 (pe : PassportEntry) : Bool :=
  pe.ecl.isSome && pe.eyr.isSome && pe.pid.isSome && pe.hcl.isSome &&
  pe.byr.isSome && pe.iyr.isSome && pe.hgt.isSome

/-- Numeric value of a digit string (most significant digit first). -/
def digitsVal (ds : Str) : Nat :=
  ds.foldl (fun a c => 10 * a + (c.toNat - '0'.toNat)) 0

/-- Strip one optional leading '+' (accepted by Rust `u32::from_str`). -/
def stripPlus : Str → Str
  | [] => []
  | c :: r => if c = '+' then r else c :: r

/-- Rust `str::parse::<u32>()`: an optional leading '+', then one or more
ASCII digits, whose value must fit in 32 bits; everything else is `Err`. -/
def parseU32 (s : Str) : Option Nat :=
  let t := stripPlus s
  if t ≠ [] ∧ t.all Char.isDigit = true ∧ digitsVal t < 2 ^ 32
  then some (digitsVal t) else none

/-- The `byr_valid` block of `is_valid_pt2`. -/
def byrComponent (o : Option Str) : Bool :=
  match o with
  | some s =>
    match parseU32 s with
    | some i => decide (1920 ≤ i ∧ i ≤ 2002)
    | none => false
  | none => false

/-- The `iyr_valid` block of `is_valid_pt2`. -/
def iyrComponent (o : Option Str) : Bool :=
  match o with
  | some s =>
    match parseU32 s with
    | some i => decide (2010 ≤ i ∧ i ≤ 2020)
    | none => false
  | none => false

/-- The `eyr_valid` block of `is_valid_pt2`. -/
def eyrComponent (o : Option Str) : Bool :=
  match o with
  | some s =>
    match parseU32 s with
    | some i => decide (2020 ≤ i ∧ i ≤ 2030)
    | none => false
  | none => false

/-- Match of the anchored regex `^(\d+)u$` for a two-character unit `u`:
succeeds exactly when `s` is a nonempty ASCII-digit string followed by `u`,
returning the digit part. -/
def matchNumUnit (s u : Str) : Option Str :=
  if s.drop (s.length - u.length) = u ∧ s.take (s.length - u.length) ≠ [] ∧
     (s.take (s.length - u.length)).all Char.isDigit = true
  then some (s.take (s.length - u.length)) else none

/-- The `hgt_valid` block of `is_valid_pt2`: try the `cm` regex first, then
the `in` regex. -/
def hgtComponent (o : Option Str) : Bool :=
  match o with
  | some s =>
    match matchNumUnit s ("cm".toList) with
    | some ds =>
      match parseU32 ds with
      | some v => decide (150 ≤ v ∧ v ≤ 193)
      | none => false
    | none =>
      match matchNumUnit s ("in".toList) with
      | some ds =>
        match parseU32 ds with
        | some v => decide (59 ≤ v ∧ v ≤ 76)
        | none => false
      | none => false
  | none => false

/-- Membership in the regex character class `[a-f|0-9]`: lowercase a-f, the
literal pipe character, or an ASCII digit. -/
def hclChar (c : Char) : Bool :=
  decide (('a' ≤ c ∧ c ≤ 'f') ∨ c = '|' ∨ ('0' ≤ c ∧ c ≤ '9'))

/-- The `hcl_valid` block of `is_valid_pt2`: the anchored regex
`^#[a-f|0-9]{6}$`. -/
def hclComponent (o : Option Str) : Bool :=
  match o with
  | some (c :: rest) => (c == '#') && rest.length == 6 && rest.all hclChar
  | _ => false

/-- The `ECL_VALUES` array of the source. -/
def ECL_VALUES : List Str :=
  ["amb".toList, "blu".toList, "brn".toList, "gry".toList,
   "grn".toList, "hzl".toList, "oth".toList]

/-- The `ecl_valid` block of `is_valid_pt2`. -/
def eclComponent (o : Option Str) : Bool :=
  match o with
  | some s => ECL_VALUES.contains s
  | none => false

/-- The `pid_valid` block of `is_valid_pt2`: the anchored regex `^\d{9}$`. -/
def pidComponent (o : Option Str) : Bool :=
  match o with
  | some s => s.length == 9 && s.all Char.isDigit
  | none => false

/-- Rust `PassportEntry::is_valid_pt2`: the conjunction of the seven
per-field checks, in source order. -/
def is_valid_pt2 (pe : PassportEntry) : Bool :=
  byrComponent pe.byr && iyrComponent pe.iyr && eyrComponent pe.eyr &&
  hgtComponent pe.hgt && hclComponent pe.hcl && eclComponent pe.ecl &&
  pidComponent pe.pid

/-- The line loop of `get_pes` with its `current_line` accumulator: a blank
line parses the accumulated block (a failed `unwrap` aborts, modelled by
`none`) and resets the accumulator; a non-blank line is appended after a
single space; at end of input a nonempty accumulator is flushed. -/
def get_pes_lines : List Str → Str → Option (List PassportEntry)
  | [], cur =>
    if cur = [] then some [] else (from_str cur).map (fun pe => [pe])
  | l :: ls, cur =>
    if l = [] then
      match from_str cur with
      | some pe => (get_pes_lines ls []).map (fun r => pe :: r)
      | none => none
    else get_pes_lines ls (cur ++ ' ' :: l)

/-- Rust `get_pes`: when the file cannot be opened (`read_lines` returns
`Err`, embedded as `none`), the `if let Ok` guard silently skips the loop,
`current_line` stays empty, and an empty vector is returned. -/
def get_pes (file : Option (List Str)) : Option (List PassportEntry) :=
  match file with
  | some lines => get_pes_lines lines []
  | none => some []

/-- Rust `main` after CLI parsing: count the entries accepted by the
validator selected by `part` (1 selects part 1, anything else part 2);
`some n` models a normal run printing `There were n valid passports` and
exiting successfully, `none` models a panic. -/
def run (part : Int) (file : Option (List Str)) : Option Nat :=
  match get_pes file with
  | some pes =>
    if part = 1 then some ((pes.filter is_valid_pt1).length)
    else some ((pes.filter is_valid_pt2).length)
  | none => none

/-- A token on which `PassportEntry::from_str` panics: the regex
`(\S+):(\S+)` has no match, or the extracted key is unrecognized. -/
def badToken (t : Str) : Bool :=
  match splitToken t with
  | some (k, _) => !(validKey k)
  | none => true

/-- The sequence of block strings that the `get_pes` loop hands to
`from_str`, starting from accumulator `cur`: every blank line terminates
the current (possibly empty) block, and the trailing block is kept as the
last element (it is parsed only when nonempty, see `processSegs`). -/
def segStrings : Str → List Str → List Str
  | cur, [] => [cur]
  | cur, l :: ls =>
    if l = [] then cur :: segStrings [] ls
    else segStrings (cur ++ ' ' :: l) ls

/-- Parse a nonempty list of block strings the way the `get_pes` loop does:
every block except the last is parsed unconditionally (each came from a
blank line), and the last block is parsed only when nonempty (the
flush-on-EOF `if current_line != ""`). -/
def processSegs : List Str → Option (List PassportEntry)
  | [] => some []
  | [s] => if s = [] then some [] else (from_str s).map (fun pe => [pe])
  | s :: s2 :: rest =>
    match from_str s with
    | some pe => (processSegs (s2 :: rest)).map (fun r => pe :: r)
    | none => none

/-- Split a list of lines at every blank line (a segment per blank-line
separator, plus the trailing segment). -/
def splitBlank : List Str → List (List Str)
  | [] => [[]]
  | l :: ls =>
    if l = [] then [] :: splitBlank ls
    else
      match splitBlank ls with
      | g :: gs => (l :: g) :: gs
      | [] => [[l]]

/-- Written from the spec's words, for comparison with the code: the
maximal groups of consecutive non-blank lines, which claim C2 says the
parsed records correspond to one-to-one. -/
def specMaximalGroups (lines : List Str) : List (List Str) :=
  (splitBlank lines).filter (fun g => !(g.isEmpty))

/-- The example record of the source comment (lines 18-19 of main.rs),
strict-valid. -/
def samplePe : PassportEntry :=
  ⟨some ("gry".toList), some ("2020".toList), some ("860033327".toList),
   some ("#fffffd".toList), some ("1937".toList), some ("2017".toList),
   some ("147".toList), some ("183cm".toList)⟩

/-- A record whose `byr` is present but not numeric. -/
def badByrPe : PassportEntry :=
  { PassportEntry.default with byr := some ("19x0".toList) }

/-! ## Theorems -/

/-- C1 counterexample: with an unreadable input file (`none`), the run does
NOT abort: it completes normally and prints a valid-passport count of 0
(the claim says it aborts as a fatal error with no count printed). -/
theorem c1_counterexample : run 2 none = some 0 ∧ run 2 none ≠ none := by
  constructor
  · rfl
  · intro h
    exact absurd h (by decide)

/-- C1 (amended): if the input file cannot be read, the `if let Ok` guard in
`get_pes` silently yields an empty record list, so for either mode the run
completes successfully and prints `There were 0 valid passports`. -/
theorem c1_unreadable_file_prints_zero (part : Int) : run part none = some 0 := by
  by_cases h : part = 1 <;> simp [run, get_pes, h]

/-- C6: basic-mode validation returns true iff all seven of `ecl`, `eyr`,
`pid`, `hcl`, `byr`, `iyr`, `hgt` are present, regardless of content, and
removing any one of those seven fields makes it false. -/
theorem c6_pt1_presence (pe : PassportEntry) :
    (is_valid_pt1 pe = true ↔
      pe.ecl.isSome = true ∧ pe.eyr.isSome = true ∧ pe.pid.isSome = true ∧
      pe.hcl.isSome = true ∧ pe.byr.isSome = true ∧ pe.iyr.isSome = true ∧
      pe.hgt.isSome = true) ∧
    is_valid_pt1 { pe with ecl := none } = false ∧
    is_valid_pt1 { pe with eyr := none } = false ∧
    is_valid_pt1 { pe with pid := none } = false ∧
    is_valid_pt1 { pe with hcl := none } = false ∧
    is_valid_pt1 { pe with byr := none } = false ∧
    is_valid_pt1 { pe with iyr := none } = false ∧
    is_valid_pt1 { pe with hgt := none } = false := by
  cases pe
  simp [is_valid_pt1, and_assoc]

/-- C8: neither validator reads `cid`: changing only the `cid` field (to
absent, or to any other value) never changes the result of basic-mode or
strict-mode validation. -/
theorem c8_cid_irrelevant (pe : PassportEntry) (c : Option Str) :
    is_valid_pt1 { pe with cid := c } = is_valid_pt1 pe ∧
    is_valid_pt2 { pe with cid := c } = is_valid_pt2 pe := by
  cases pe
  exact ⟨rfl, rfl⟩

/-- C10: the all-absent record (produced by parsing an empty or
whitespace-only block, e.g. the empty blocks created by consecutive blank
separator lines) is rejected by both validators. -/
theorem c10_empty_record_invalid :
    from_str [] = some PassportEntry.default ∧
    from_str ("   ".toList) = some PassportEntry.default ∧
    is_valid_pt1 PassportEntry.default = false ∧
    is_valid_pt2 PassportEntry.default = false := by decide

/-- C5: the strict-mode `byr` component accepts exactly the records whose
`byr` is present and parses (as a `u32`) to a value in [1920, 2002]; a
present value that fails to parse makes the whole record strict-invalid
(the validator returns `false`, a total function — never a panic); 1920 and
2002 are accepted, 1919 and 2003 rejected. -/
theorem c5_byr_strict :
    (∀ o : Option Str, byrComponent o = true ↔
      ∃ s v, o = some s ∧ parseU32 s = some v ∧ 1920 ≤ v ∧ v ≤ 2002) ∧
    (∀ (pe : PassportEntry) (s : Str), pe.byr = some s → parseU32 s = none →
      is_valid_pt2 pe = false) ∧
    byrComponent (some ("1920".toList)) = true ∧
    byrComponent (some ("2002".toList)) = true ∧
    byrComponent (some ("1919".toList)) = false ∧
    byrComponent (some ("2003".toList)) = false := by
  refine ⟨?_, ?_, by decide, by decide, by decide, by decide⟩
  · intro o
    cases o with
    | none => simp [byrComponent]
    | some s =>
      cases hp : parseU32 s with
      | none => simp [byrComponent, hp]
      | some v => simp [byrComponent, hp, and_assoc]
  · intro pe s hb hp
    simp [is_valid_pt2, byrComponent, hb, hp]

/-- C5 witness: a concrete record with a present non-numeric `byr` is
strict-invalid. -/
theorem c5_witness :
    badByrPe.byr = some ("19x0".toList) ∧
    parseU32 ("19x0".toList) = none ∧
    is_valid_pt2 badByrPe = false :=
  ⟨rfl, by decide, c5_byr_strict.2.1 badByrPe ("19x0".toList) rfl (by decide)⟩

/-- A strict-mode component that rejects an absent value only accepts
present values. -/
theorem component_isSome {f : Option Str → Bool} (hf : f none = false)
    {o : Option Str} (h : f o = true) : o.isSome = true := by
  cases o with
  | none => rw [hf] at h; exact absurd h (by simp)
  | some s => rfl

/-- C9: strict mode is stricter than basic mode: every record accepted by
`is_valid_pt2` is accepted by `is_valid_pt1`. -/
theorem c9_strict_implies_basic (pe : PassportEntry)
    (h : is_valid_pt2 pe = true) : is_valid_pt1 pe = true := by
  simp only [is_valid_pt2, Bool.and_eq_true] at h
  obtain ⟨⟨⟨⟨⟨⟨hbyr, hiyr⟩, heyr⟩, hhgt⟩, hhcl⟩, hecl⟩, hpid⟩ := h
  simp only [is_valid_pt1, Bool.and_eq_true]
  exact ⟨⟨⟨⟨⟨⟨component_isSome rfl hecl, component_isSome rfl heyr⟩,
    component_isSome rfl hpid⟩, component_isSome rfl hhcl⟩,
    component_isSome rfl hbyr⟩, component_isSome rfl hiyr⟩,
    component_isSome rfl hhgt⟩

/-- C9 witness: the sample record of the source comment is strict-valid,
hence basic-valid. -/
theorem c9_witness :
    is_valid_pt2 samplePe = true ∧ is_valid_pt1 samplePe = true :=
  ⟨by decide, c9_strict_implies_basic samplePe (by decide)⟩

/-- C4: the strict-mode `hcl` component accepts exactly `#` followed by six
characters from the verbatim character class `[a-f|0-9]` (an ASCII digit, a
lowercase letter a-f, or a literal pipe): `#123abc` accepted, `#123abz` and
`123abc` rejected, and `#||||||` accepted. -/
theorem c4_hcl_strict :
    (∀ s : Str, hclComponent (some s) = true ↔
      ∃ t, s = '#' :: t ∧ t.length = 6 ∧
        ∀ c ∈ t, ('0' ≤ c ∧ c ≤ '9') ∨ ('a' ≤ c ∧ c ≤ 'f') ∨ c = '|') ∧
    hclComponent (some ("#123abc".toList)) = true ∧
    hclComponent (some ("#123abz".toList)) = false ∧
    hclComponent (some ("123abc".toList)) = false ∧
    hclComponent (some ("#||||||".toList)) = true := by
  refine ⟨?_, by decide, by decide, by decide, by decide⟩
  intro s
  cases s with
  | nil => simp [hclComponent]
  | cons c rest =>
    simp only [hclComponent, Bool.and_eq_true, beq_iff_eq, List.all_eq_true,
      hclChar, decide_eq_true_iff, List.cons.injEq]
    constructor
    · rintro ⟨⟨rfl, hlen⟩, hall⟩
      refine ⟨rest, ⟨rfl, rfl⟩, hlen, ?_⟩
      intro x hx
      have := hall x hx
      tauto
    · rintro ⟨t, ⟨rfl, rfl⟩, hlen, hall⟩
      refine ⟨⟨rfl, hlen⟩, ?_⟩
      intro x hx
      have := hall x hx
      tauto

/-- Characterization of the embedded anchored regex `^(\d+)u$`: it matches
with capture `ds` exactly when the string is `ds ++ u` for a nonempty
all-digit `ds`. -/
theorem matchNumUnit_eq_some {s u ds : Str} :
    matchNumUnit s u = some ds ↔
      s = ds ++ u ∧ ds ≠ [] ∧ ds.all Char.isDigit = true := by
  constructor
  · intro h
    unfold matchNumUnit at h
    split at h
    · rename_i hcond
      obtain ⟨h1, h2, h3⟩ := hcond
      obtain rfl : s.take (s.length - u.length) = ds := Option.some.inj h
      refine ⟨?_, h2, h3⟩
      conv_lhs => rw [← List.take_append_drop (s.length - u.length) s]
      rw [h1]
    · exact absurd h (by simp)
  · rintro ⟨rfl, h2, h3⟩
    have hl : (ds ++ u).length - u.length = ds.length := by
      simp [List.length_append]
    unfold matchNumUnit
    rw [hl, List.take_left, List.drop_left]
    simp [h2, h3]

/-- The capture of `^(\d+)cm$` or `^(\d+)in$` is all digits, so Rust's
`u32` parse on it reduces to the 32-bit overflow test. -/
theorem parseU32_digits {ds : Str} (h1 : ds ≠ []) (h2 : ds.all Char.isDigit = true) :
    parseU32 ds = if digitsVal ds < 2 ^ 32 then some (digitsVal ds) else none := by
  have hsp : stripPlus ds = ds := by
    cases ds with
    | nil => rfl
    | cons c cs =>
      have hc : c ≠ '+' := by
        intro hc
        subst hc
        rw [List.all_cons, Bool.and_eq_true] at h2
        exact absurd h2.1 (by decide)
      simp [stripPlus, hc]
  simp only [parseU32, hsp]
  simp [h1, h2]

/-- Two different two-character unit suffixes cannot both terminate the
same string. -/
theorem unit_suffix_ne {a b : Str} (h : a ++ ("cm".toList) = b ++ ("in".toList)) :
    False := by
  have h2 := (List.append_inj' h rfl).2
  exact absurd h2 (by decide)

/-- C3: the strict-mode `hgt` component accepts exactly the values of the
form digits++"cm" with numeric part in [150, 193] or digits++"in" with
numeric part in [59, 76]; any other shape, including a bare number or an
unknown unit, is rejected: `190cm` accepted, `190in` and `190` rejected. -/
theorem c3_hgt_strict :
    (∀ s : Str, hgtComponent (some s) = true ↔
      ((∃ ds, s = ds ++ ("cm".toList) ∧ ds ≠ [] ∧ ds.all Char.isDigit = true ∧
          150 ≤ digitsVal ds ∧ digitsVal ds ≤ 193) ∨
       (∃ ds, s = ds ++ ("in".toList) ∧ ds ≠ [] ∧ ds.all Char.isDigit = true ∧
          59 ≤ digitsVal ds ∧ digitsVal ds ≤ 76))) ∧
    hgtComponent (some ("190cm".toList)) = true ∧
    hgtComponent (some ("190in".toList)) = false ∧
    hgtComponent (some ("190".toList)) = false := by
  refine ⟨?_, by decide, by decide, by decide⟩
  intro s
  cases hcm : matchNumUnit s ("cm".toList) with
  | some ds =>
    obtain ⟨hs, hne, hdig⟩ := matchNumUnit_eq_some.mp hcm
    simp only [hgtComponent, hcm]
    rw [parseU32_digits hne hdig]
    by_cases hv : digitsVal ds < 2 ^ 32
    · rw [if_pos hv]
      simp only [decide_eq_true_iff]
      constructor
      · intro hr
        exact Or.inl ⟨ds, hs, hne, hdig, hr.1, hr.2⟩
      · rintro (⟨ds2, hs2, -, -, hl, hr⟩ | ⟨ds2, hs2, -, -, hl, hr⟩)
        · obtain rfl : ds2 = ds :=
            (List.append_inj' (hs2 ▸ hs : ds2 ++ ("cm".toList) = ds ++ ("cm".toList)).symm rfl).1.symm
          exact ⟨hl, hr⟩
        · exact absurd (hs2 ▸ hs : ds2 ++ ("in".toList) = ds ++ ("cm".toList)).symm unit_suffix_ne
    · rw [if_neg hv]
      constructor
      · intro h
        exact absurd h (by simp)
      · rintro (⟨ds2, hs2, -, -, hl, hr⟩ | ⟨ds2, hs2, -, -, hl, hr⟩)
        · obtain rfl : ds2 = ds :=
            (List.append_inj' (hs2 ▸ hs : ds2 ++ ("cm".toList) = ds ++ ("cm".toList)).symm rfl).1.symm
          exact absurd (by omega : digitsVal ds2 < 2 ^ 32) hv
        · exact absurd (hs2 ▸ hs : ds2 ++ ("in".toList) = ds ++ ("cm".toList)).symm unit_suffix_ne
  | none =>
    cases hin : matchNumUnit s ("in".toList) with
    | some ds =>
      obtain ⟨hs, hne, hdig⟩ := matchNumUnit_eq_some.mp hin
      simp only [hgtComponent, hcm, hin]
      rw [parseU32_digits hne hdig]
      by_cases hv : digitsVal ds < 2 ^ 32
      · rw [if_pos hv]
        simp only [decide_eq_true_iff]
        constructor
        · intro hr
          exact Or.inr ⟨ds, hs, hne, hdig, hr.1, hr.2⟩
        · rintro (⟨ds2, hs2, -, -, hl, hr⟩ | ⟨ds2, hs2, -, -, hl, hr⟩)
          · exact absurd (hs2 ▸ hs : ds2 ++ ("cm".toList) = ds ++ ("in".toList)) unit_suffix_ne
          · obtain rfl : ds2 = ds :=
              (List.append_inj' (hs2 ▸ hs : ds2 ++ ("in".toList) = ds ++ ("in".toList)).symm rfl).1.symm
            exact ⟨hl, hr⟩
      · rw [if_neg hv]
        constructor
        · intro h
          exact absurd h (by simp)
        · rintro (⟨ds2, hs2, -, -, hl, hr⟩ | ⟨ds2, hs2, -, -, hl, hr⟩)
          · exact absurd (hs2 ▸ hs : ds2 ++ ("cm".toList) = ds ++ ("in".toList)) unit_suffix_ne
          · obtain rfl : ds2 = ds :=
              (List.append_inj' (hs2 ▸ hs : ds2 ++ ("in".toList) = ds ++ ("in".toList)).symm rfl).1.symm
            exact absurd (by omega : digitsVal ds2 < 2 ^ 32) hv
    | none =>
      simp only [hgtComponent, hcm, hin]
      constructor
      · intro h
        exact absurd h (by simp)
      · rintro (⟨ds2, hs2, hne, hdig, -, -⟩ | ⟨ds2, hs2, hne, hdig, -, -⟩)
        · have hx := matchNumUnit_eq_some.mpr ⟨hs2, hne, hdig⟩
          rw [hcm] at hx
          exact Option.noConfusion hx
        · have hx := matchNumUnit_eq_some.mpr ⟨hs2, hne, hdig⟩
          rw [hin] at hx
          exact Option.noConfusion hx

/-- The key-dispatch of `from_str` fails exactly on unrecognized keys. -/
theorem setField_eq_none {pe : PassportEntry} {k v : Str} :
    setField pe k v = none ↔ validKey k = false := by
  unfold setField validKey
  split_ifs <;> simp

/-- A token makes one loop iteration of `from_str` panic exactly when it is
a bad token, independently of the record built so far. -/
theorem applyToken_eq_none {pe : PassportEntry} {t : Str} :
    applyToken pe t = none ↔ badToken t = true := by
  unfold applyToken badToken
  cases splitToken t with
  | none => simp
  | some kv =>
    obtain ⟨k, v⟩ := kv
    simp only [setField_eq_none, Bool.not_eq_true']

/-- The token loop of `from_str` panics exactly when some token of the
block is bad, whatever the starting record. -/
theorem from_str_tokens_eq_none (ts : List Str) : ∀ pe : PassportEntry,
    (from_str_tokens pe ts = none ↔ ∃ t ∈ ts, badToken t = true) := by
  induction ts with
  | nil => intro pe; simp [from_str_tokens]
  | cons t ts ih =>
    intro pe
    simp only [from_str_tokens]
    cases hat : applyToken pe t with
    | none =>
      have hbad := applyToken_eq_none.mp hat
      simp [hbad]
    | some pe2 =>
      have hgood : badToken t = false := by
        cases hb : badToken t with
        | false => rfl
        | true => rw [applyToken_eq_none.mpr hb] at hat; exact Option.noConfusion hat
      rw [ih pe2]
      simp [hgood]

/-- C7 counterexample: the block with the single token `ecl:x:` has a token
with two colons (hence not of the claimed one-colon `key:value` shape), yet
the parse does NOT panic: the greedy regex splits at the last interior
colon, yielding key `ecl` and value `x:`. -/
theorem c7_counterexample :
    from_str (" ecl:x:".toList) =
      some { PassportEntry.default with ecl := some ("x:".toList) } ∧
    ∃ t ∈ splitWhitespace (" ecl:x:".toList),
      2 ≤ (t.filter (fun c => c == ':')).length := by decide

/-- C7 (amended): parsing a block panics exactly when some
whitespace-delimited token is bad, i.e. either the token has no colon with
at least one character on each side, or the part before the LAST such colon
is not one of the eight recognized keys; in particular a block containing
the token `xyz:123` aborts the run. -/
theorem c7_parse_failure_characterization :
    (∀ s : Str, from_str s = none ↔ ∃ t ∈ splitWhitespace s, badToken t = true) ∧
    from_str (" xyz:123".toList) = none := by
  refine ⟨?_, by decide⟩
  intro s
  exact from_str_tokens_eq_none (splitWhitespace s) PassportEntry.default

/-- The `get_pes` loop always produces at least one (possibly empty) block
string. -/
theorem segStrings_ne_nil (ls : List Str) : ∀ cur : Str, segStrings cur ls ≠ [] := by
  induction ls with
  | nil => intro cur; simp [segStrings]
  | cons l ls ih =>
    intro cur
    by_cases hl : l = []
    · simp [segStrings, hl]
    · simp only [segStrings, if_neg hl]
      exact ih _

/-- The `get_pes` loop is the blank-line segmentation: starting from
accumulator `cur`, it returns exactly the parses of the block strings
`segStrings cur ls`, with the last one flushed only when nonempty. -/
theorem get_pes_lines_eq (ls : List Str) : ∀ cur : Str,
    get_pes_lines ls cur = processSegs (segStrings cur ls) := by
  induction ls with
  | nil =>
    intro cur
    simp [get_pes_lines, segStrings, processSegs]
  | cons l ls ih =>
    intro cur
    by_cases hl : l = []
    · subst hl
      obtain ⟨r, rs, hrr⟩ := List.exists_cons_of_ne_nil (segStrings_ne_nil ls [])
      have hseg : segStrings cur ([] :: ls) = cur :: segStrings [] ls := by
        simp [segStrings]
      rw [hseg, hrr]
      simp only [get_pes_lines, if_pos rfl, processSegs]
      cases from_str cur with
      | none => rfl
      | some pe =>
        rw [ih [], hrr]
        simp
    · have hseg : segStrings cur (l :: ls) = segStrings (cur ++ ' ' :: l) ls := by
        simp [segStrings, hl]
      rw [hseg]
      simp only [get_pes_lines, if_neg hl]
      exact ih _

/-- C2 counterexample: on the four-line file `ecl:a` / blank / blank /
`eyr:b` the maximal groups of non-blank lines number two, but `get_pes`
produces three records: the two consecutive blank lines introduce an extra
(all-absent) record, contradicting the claimed one-to-one correspondence. -/
theorem c2_counterexample :
    (get_pes (some [("ecl:a".toList), [], [], ("eyr:b".toList)])).map List.length =
      some 3 ∧
    (specMaximalGroups [("ecl:a".toList), [], [], ("eyr:b".toList)]).length = 2 := by
  decide

/-- C2 (amended): the parsed records correspond one-to-one, in order, with
the blank-line-terminated segments of the file: every blank line ends the
current (possibly empty) segment and yields a record for it — so extra
consecutive blank lines DO introduce extra all-absent records — and a
trailing segment with no terminating blank line is still collected exactly
when it is nonempty. -/
theorem c2_records_are_blank_terminated_segments (lines : List Str) :
    get_pes (some lines) = processSegs (segStrings [] lines) :=
  get_pes_lines_eq lines []

end Day4
